import Mathlib

/-!
Shallow embedding of the session multiplexer of the wg-udp-relay program
(main.go, SNAT topology).  Sockets are modelled by numeric identifiers paired
with the remote address they are dialed to; the session table is an
association list keyed by the client address string; successful socket writes
are logged in order.  Each critical section of the Go code (the region of
handleClientPacket holding sessionsMu, one loop iteration of
handleTargetResponses, closeSession, one reaper tick of cleanupSessions, the
whole migrateSessionsToNewTarget sweep) is modelled as one atomic step, which
is faithful because those regions are serialized by sessionsMu and the
per-session mutex in the source.  Outcomes of fallible system calls
(net.DialUDP, conn.Write, conn.Read) are supplied as oracle parameters.
-/

/-- A datagram payload, as the list of its bytes. -/
abbrev Bytes := List Nat

/-- ClientSession (main.go lines 15-21): per-client state of the SNAT
topology, holding the backend-facing socket (toServerConn, ephemeral port),
the client-facing socket (toClientConn, bound to the listen port) and the
liveness timestamp.  The per-session mutex is represented by atomicity of the
steps below. -/
structure ClientSession where
  clientAddr : String
  toServerConn : Nat
  toClientConn : Nat
  lastActive : Nat
deriving DecidableEq

/-- One running handleTargetResponses goroutine: the client key it serves and
the backend socket it is draining.  A task is appended when the goroutine is
spawned and erased when the goroutine returns. -/
structure EgressTask where
  key : String
  conn : Nat
deriving DecidableEq

/-- Observable state of one Relay instance (main.go lines 24-36) plus
instrumentation.  openSocks lists every open socket as a pair of its
identifier and the remote address it was dialed to; nextSock is the next
fresh identifier; serverWrites and clientWrites log, in order, the successful
writes to backend-facing respectively client-facing sockets; targetConn is
the currently resolved backend target; timeout and bufferSize mirror the
corresponding Relay configuration fields. -/
structure RelayState where
  sessions : List (String × ClientSession)
  openSocks : List (Nat × String)
  nextSock : Nat
  egress : List EgressTask
  serverWrites : List (Nat × Bytes)
  clientWrites : List (Nat × Bytes)
  targetConn : String
  timeout : Nat
  bufferSize : Nat
deriving DecidableEq

/-- Lookup in the session table, mirroring the Go map read
r.sessions[clientKey]. -/
def lookupSession : List (String × ClientSession) → String → Option ClientSession
  | [], _ => none
  | kv :: rest, k => if kv.1 = k then some kv.2 else lookupSession rest k

/-- In-place update of the entry for a key, mirroring a mutation of the
session object held in the map (the entry itself is neither removed nor
re-created). -/
def setKey : List (String × ClientSession) → String → ClientSession → List (String × ClientSession)
  | [], _, _ => []
  | kv :: rest, k, s => if kv.1 = k then (k, s) :: setKey rest k s else kv :: setKey rest k s

/-- Removal of a key, mirroring the Go map delete(r.sessions, key). -/
def eraseKey : List (String × ClientSession) → String → List (String × ClientSession)
  | [], _ => []
  | kv :: rest, k => if kv.1 = k then eraseKey rest k else kv :: eraseKey rest k

/-- Remove the socket with the given identifier from the open-socket list,
mirroring conn.Close(). -/
def removeSockId : List (Nat × String) → Nat → List (Nat × String)
  | [], _ => []
  | p :: rest, n => if p.1 = n then removeSockId rest n else p :: removeSockId rest n

/-- Closing one socket of the relay state. -/
def closeSock (st : RelayState) (n : Nat) : RelayState :=
  { st with openSocks := removeSockId st.openSocks n }

/-- handleClientPacket (main.go lines 158-218), one whole invocation as an
atomic step.  The branch on lookupSession models the getOrCreate critical
section held under sessionsMu (lines 162-205): on a miss it dials the
backend-facing socket against the current target, then the client-facing
socket, inserts the session and spawns the egress task, all before the
unlock; dial failures close any socket already opened and leave the table
unchanged.  After the critical section lastActive is refreshed under the
session mutex and the payload is written verbatim to toServerConn; a write
failure only drops the datagram (nothing is logged to serverWrites). -/
def handleClientPacket (st : RelayState) (data : Bytes) (clientAddr : String)
    (now : Nat) (dialServerOk dialClientOk writeOk : Bool) : RelayState :=
  let clientKey := clientAddr
  match lookupSession st.sessions clientKey with
  | some session =>
      let session := { session with lastActive := now }
      let st := { st with sessions := setKey st.sessions clientKey session }
      if writeOk then
        { st with serverWrites := st.serverWrites ++ [(session.toServerConn, data)] }
      else st
  | none =>
      if dialServerOk then
        let toServerConn := st.nextSock
        let st1 := { st with nextSock := st.nextSock + 1,
                             openSocks := st.openSocks ++ [(toServerConn, st.targetConn)] }
        if dialClientOk then
          let toClientConn := st1.nextSock
          let st2 := { st1 with nextSock := st1.nextSock + 1,
                                openSocks := st1.openSocks ++ [(toClientConn, clientAddr)] }
          let session : ClientSession := ⟨clientAddr, toServerConn, toClientConn, now⟩
          let st3 := { st2 with sessions := st2.sessions ++ [(clientKey, session)],
                                egress := st2.egress ++ [⟨clientKey, toServerConn⟩] }
          if writeOk then
            { st3 with serverWrites := st3.serverWrites ++ [(toServerConn, data)] }
          else st3
        else
          closeSock st1 toServerConn
      else st

/-- closeSession (main.go lines 252-262): under the table lock, if the key is
present close both sockets of the session and delete the entry, otherwise do
nothing. -/
def closeSession (st : RelayState) (clientKey : String) : RelayState :=
  match lookupSession st.sessions clientKey with
  | some session =>
      { closeSock (closeSock st session.toServerConn) session.toClientConn with
        sessions := eraseKey st.sessions clientKey }
  | none => st

/-- Outcome of one blocking read on the backend-facing socket, with the read
deadline set to now plus the idle timeout (main.go lines 225-226). -/
inductive ReadResult where
  | success (payload : Bytes)
  | timeout
  | readError
deriving DecidableEq

/-- One loop iteration of handleTargetResponses (main.go lines 221-249) for
the given running task.  On a read deadline expiry or read error the goroutine
calls closeSession on its client key and returns (the task is erased); the
returned Bool is false exactly when the goroutine exits.  On a successful
read it refreshes lastActive under the session mutex and writes the payload
to toClientConn; a failed client-facing write is only logged and the loop
continues. -/
def handleTargetResponsesStep (st : RelayState) (t : EgressTask) (res : ReadResult)
    (now : Nat) (writeOk : Bool) : RelayState × Bool :=
  match res with
  | .timeout =>
      let st := closeSession st t.key
      ({ st with egress := st.egress.erase t }, false)
  | .readError =>
      let st := closeSession st t.key
      ({ st with egress := st.egress.erase t }, false)
  | .success payload =>
      match lookupSession st.sessions t.key with
      | some session =>
          let session := { session with lastActive := now }
          let st := { st with sessions := setKey st.sessions t.key session }
          if writeOk then
            ({ st with clientWrites := st.clientWrites ++ [(session.toClientConn, payload)] }, true)
          else (st, true)
      | none => (st, true)

/-- Body of the reaper loop for one table entry (main.go lines 272-281):
under the session mutex, if now minus lastActive exceeds the timeout, close
both sockets and delete the entry. -/
def cleanupStep (tmo now : Nat) (acc : RelayState) (kv : String × ClientSession) : RelayState :=
  if now - kv.2.lastActive > tmo then
    { closeSock (closeSock acc kv.2.toServerConn) kv.2.toClientConn with
      sessions := eraseKey acc.sessions kv.1 }
  else acc

/-- One tick of cleanupSessions (main.go lines 265-284): under the table
lock, sweep every entry with cleanupStep. -/
def cleanupSessions (st : RelayState) (now : Nat) : RelayState :=
  st.sessions.foldl (cleanupStep st.timeout now) st

/-- Body of the migration sweep for one table entry (main.go lines 325-351):
under the session mutex, close the old backend-facing socket and dial a new
one at the new target; on dial failure close the client-facing socket as well
and delete the entry; on success install the new socket in place and spawn a
fresh handleTargetResponses task for it. -/
def migrateStep (newTarget : String) (dialOk : String → Bool)
    (acc : RelayState) (kv : String × ClientSession) : RelayState :=
  let clientKey := kv.1
  let session := kv.2
  let acc1 := closeSock acc session.toServerConn
  if dialOk clientKey then
    let newConn := acc1.nextSock
    let acc2 := { acc1 with nextSock := acc1.nextSock + 1,
                            openSocks := acc1.openSocks ++ [(newConn, newTarget)] }
    { acc2 with sessions := setKey acc2.sessions clientKey { session with toServerConn := newConn },
                egress := acc2.egress ++ [⟨clientKey, newConn⟩] }
  else
    { closeSock acc1 session.toClientConn with
      sessions := eraseKey acc1.sessions clientKey }

/-- migrateSessionsToNewTarget (main.go lines 319-352): under the table lock,
sweep every entry with migrateStep.  The per-session dial outcomes are
supplied by the oracle dialOk. -/
def migrateSessionsToNewTarget (st : RelayState) (newTarget : String)
    (dialOk : String → Bool) : RelayState :=
  st.sessions.foldl (migrateStep newTarget dialOk) st

/-- The blocking receive of the ingress loop (main.go line 142): the datagram
is written into the reused receive buffer, truncated to the buffer size, and
the byte count is returned. -/
def recvInto (buffer dgram : Bytes) : Nat × Bytes :=
  let n := min dgram.length buffer.length
  (n, dgram.take n ++ buffer.drop n)

/-- The defensive copy of the ingress loop (main.go lines 148-150): the first
n bytes of the receive buffer are copied into a fresh slice before the
per-packet goroutine is spawned. -/
def dataCopy (buffer : Bytes) (n : Nat) : Bytes := buffer.take n

/-- One event of the ingress path: a datagram with its source address, the
time of handling, and the oracle outcomes for the two dials and the forward
write. -/
structure PacketEvent where
  data : Bytes
  clientAddr : String
  now : Nat
  dialServerOk : Bool
  dialClientOk : Bool
  writeOk : Bool

/-- A sequence of handleClientPacket invocations.  Because the getOrCreate
region runs under the table-wide sessionsMu, any concurrent arrival of
packets serializes into such a sequence. -/
def handleRun (st : RelayState) : List PacketEvent → RelayState
  | [] => st
  | e :: rest =>
      handleRun (handleClientPacket st e.data e.clientAddr e.now
        e.dialServerOk e.dialClientOk e.writeOk) rest

/-- A run of forward handlers for one client executed in arrival order, all
dials irrelevant (session exists) and all writes succeeding.  Each list
element is a payload with its handling time. -/
def forwardRun (st : RelayState) (clientAddr : String) : List (Bytes × Nat) → RelayState
  | [] => st
  | (d, now) :: rest =>
      forwardRun (handleClientPacket st d clientAddr now true true true) clientAddr rest

/-- A run of successful read iterations of one handleTargetResponses task, in
the order the replies arrive from the backend, all client-facing writes
succeeding. -/
def egressRun (st : RelayState) (t : EgressTask) : List (Bytes × Nat) → RelayState
  | [] => st
  | (p, now) :: rest =>
      egressRun (handleTargetResponsesStep st t (.success p) now true).1 t rest

/-- A sample state with one established session, used by concrete witnesses:
client c with backend socket 0 (dialed at tgt) and client-facing socket 1. -/
def sampleSession : ClientSession := ⟨"c", 0, 1, 0⟩

/-- Sample relay state holding sampleSession and its running egress task. -/
def sampleState : RelayState :=
  { sessions := [("c", sampleSession)]
    openSocks := [(0, "tgt"), (1, "c")]
    nextSock := 2
    egress := [⟨"c", 0⟩]
    serverWrites := []
    clientWrites := []
    targetConn := "tgt"
    timeout := 50
    bufferSize := 1500 }

/-- Variant of sampleState with a small buffer, for concrete evaluations of
the ingress path. -/
def tinyState : RelayState :=
  { sampleState with bufferSize := 3 }

/-- A second sample session, idle since time 0. -/
def idleSession : ClientSession := ⟨"d", 2, 3, 0⟩

/-- A sample state with two sessions: client c active at time 100 and client
d idle since time 0. -/
def c7State : RelayState :=
  { sessions := [("c", ⟨"c", 0, 1, 100⟩), ("d", idleSession)]
    openSocks := [(0, "tgt"), (1, "c"), (2, "tgt"), (3, "d")]
    nextSock := 4
    egress := [⟨"c", 0⟩, ⟨"d", 2⟩]
    serverWrites := []
    clientWrites := []
    targetConn := "tgt"
    timeout := 50
    bufferSize := 1500 }

/-! ## Helper lemmas about the table and socket primitives -/

theorem lookupSession_eq_none_iff (l : List (String × ClientSession)) (k : String) :
    lookupSession l k = none ↔ k ∉ l.map Prod.fst := by
  induction l with
  | nil => simp [lookupSession]
  | cons kv rest ih =>
      by_cases h : kv.1 = k
      · simp [lookupSession, h]
      · simp [lookupSession, h, ih, Ne.symm h]

theorem mem_of_lookupSession_eq_some {l : List (String × ClientSession)} {k : String}
    {s : ClientSession} (h : lookupSession l k = some s) : (k, s) ∈ l := by
  induction l with
  | nil => simp [lookupSession] at h
  | cons kv rest ih =>
      by_cases hk : kv.1 = k
      · simp [lookupSession, hk] at h
        have he : (k, s) = kv := by
          cases kv with
          | mk a b =>
              cases hk
              cases h
              rfl
        rw [he]
        exact List.mem_cons_self _ _
      · simp [lookupSession, hk] at h
        exact List.mem_cons_of_mem _ (ih h)

theorem lookupSession_of_mem_nodup {l : List (String × ClientSession)} {k : String}
    {s : ClientSession} (hnd : (l.map Prod.fst).Nodup) (hmem : (k, s) ∈ l) :
    lookupSession l k = some s := by
  induction l with
  | nil => simp at hmem
  | cons kv rest ih =>
      simp only [List.map_cons, List.nodup_cons] at hnd
      rcases List.mem_cons.mp hmem with heq | htail
      · subst heq
        simp [lookupSession]
      · have hk : kv.1 ≠ k := by
          intro he
          exact hnd.1 (he ▸ (List.mem_map.mpr ⟨(k, s), htail, rfl⟩))
        simp [lookupSession, hk, ih hnd.2 htail]

theorem keys_setKey (l : List (String × ClientSession)) (k : String) (s : ClientSession) :
    (setKey l k s).map Prod.fst = l.map Prod.fst := by
  induction l with
  | nil => simp [setKey]
  | cons kv rest ih =>
      by_cases hk : kv.1 = k
      · simp [setKey, hk, ih]
      · simp [setKey, hk, ih]

theorem lookupSession_setKey_self {l : List (String × ClientSession)} {k : String}
    {s : ClientSession} (v : ClientSession) (h : lookupSession l k = some s) :
    lookupSession (setKey l k v) k = some v := by
  induction l with
  | nil => simp [lookupSession] at h
  | cons kv rest ih =>
      by_cases hk : kv.1 = k
      · simp [setKey, hk, lookupSession]
      · simp [lookupSession, hk] at h
        simp [setKey, hk, lookupSession, ih h]

theorem lookupSession_setKey_ne {l : List (String × ClientSession)} {k k1 : String}
    (v : ClientSession) (h : k1 ≠ k) :
    lookupSession (setKey l k1 v) k = lookupSession l k := by
  induction l with
  | nil => simp [setKey]
  | cons kv rest ih =>
      by_cases hk : kv.1 = k1
      · simp [setKey, hk, lookupSession, h, ih]
      · by_cases hk2 : kv.1 = k
        · simp [setKey, hk, lookupSession, hk2, Ne.symm h]
        · simp [setKey, hk, lookupSession, hk2, ih]

theorem mem_eraseKey {l : List (String × ClientSession)} {k : String}
    {kv : String × ClientSession} :
    kv ∈ eraseKey l k ↔ kv ∈ l ∧ kv.1 ≠ k := by
  induction l with
  | nil => simp [eraseKey]
  | cons hd rest ih =>
      by_cases hk : hd.1 = k
      · rw [eraseKey]
        simp only [if_pos hk, ih, List.mem_cons]
        constructor
        · rintro ⟨h1, h2⟩
          exact ⟨Or.inr h1, h2⟩
        · rintro ⟨h1 | h1, h2⟩
          · exact absurd (h1 ▸ hk) h2
          · exact ⟨h1, h2⟩
      · rw [eraseKey]
        simp only [if_neg hk, List.mem_cons, ih]
        constructor
        · rintro (h1 | ⟨h1, h2⟩)
          · exact ⟨Or.inl h1, h1 ▸ hk⟩
          · exact ⟨Or.inr h1, h2⟩
        · rintro ⟨h1 | h1, h2⟩
          · exact Or.inl h1
          · exact Or.inr ⟨h1, h2⟩

theorem not_mem_keys_eraseKey (l : List (String × ClientSession)) (k : String) :
    k ∉ (eraseKey l k).map Prod.fst := by
  intro h
  rcases List.mem_map.mp h with ⟨kv, hmem, hfst⟩
  exact (mem_eraseKey.mp hmem).2 hfst

theorem lookupSession_eraseKey_self (l : List (String × ClientSession)) (k : String) :
    lookupSession (eraseKey l k) k = none :=
  (lookupSession_eq_none_iff _ _).mpr (not_mem_keys_eraseKey l k)

theorem lookupSession_eraseKey_ne {l : List (String × ClientSession)} {k k1 : String}
    (h : k1 ≠ k) : lookupSession (eraseKey l k1) k = lookupSession l k := by
  induction l with
  | nil => simp [eraseKey]
  | cons kv rest ih =>
      by_cases hk : kv.1 = k1
      · simp [eraseKey, hk, lookupSession, h, ih]
      · by_cases hk2 : kv.1 = k
        · simp [eraseKey, hk, lookupSession, hk2, Ne.symm h]
        · simp [eraseKey, hk, lookupSession, hk2, ih]

theorem mem_removeSockId {l : List (Nat × String)} {n : Nat} {p : Nat × String} :
    p ∈ removeSockId l n ↔ p ∈ l ∧ p.1 ≠ n := by
  induction l with
  | nil => simp [removeSockId]
  | cons hd rest ih =>
      by_cases hn : hd.1 = n
      · rw [removeSockId]
        simp only [if_pos hn, ih, List.mem_cons]
        constructor
        · rintro ⟨h1, h2⟩
          exact ⟨Or.inr h1, h2⟩
        · rintro ⟨h1 | h1, h2⟩
          · exact absurd (h1 ▸ hn) h2
          · exact ⟨h1, h2⟩
      · rw [removeSockId]
        simp only [if_neg hn, List.mem_cons, ih]
        constructor
        · rintro (h1 | ⟨h1, h2⟩)
          · exact ⟨Or.inl h1, h1 ▸ hn⟩
          · exact ⟨Or.inr h1, h2⟩
        · rintro ⟨h1 | h1, h2⟩
          · exact Or.inl h1
          · exact Or.inr ⟨h1, h2⟩

theorem removeSockId_eq_self {l : List (Nat × String)} {n : Nat}
    (h : ∀ p ∈ l, p.1 ≠ n) : removeSockId l n = l := by
  induction l with
  | nil => rfl
  | cons hd rest ih =>
      rw [removeSockId]
      rw [if_neg (h hd (List.mem_cons_self _ _))]
      rw [ih fun p hp => h p (List.mem_cons_of_mem _ hp)]

theorem removeSockId_append (l1 l2 : List (Nat × String)) (n : Nat) :
    removeSockId (l1 ++ l2) n = removeSockId l1 n ++ removeSockId l2 n := by
  induction l1 with
  | nil => simp [removeSockId]
  | cons hd rest ih =>
      by_cases hn : hd.1 = n
      · simp [removeSockId, hn, ih]
      · simp [removeSockId, hn, ih]

theorem nodup_keys_unique {l : List (String × ClientSession)} {k : String}
    {a b : ClientSession} (hnd : (l.map Prod.fst).Nodup)
    (ha : (k, a) ∈ l) (hb : (k, b) ∈ l) : a = b := by
  have h1 := lookupSession_of_mem_nodup hnd ha
  have h2 := lookupSession_of_mem_nodup hnd hb
  rw [h1] at h2
  injection h2

theorem lookupSession_append_none {l : List (String × ClientSession)} {k : String}
    (s : ClientSession) (h : lookupSession l k = none) :
    lookupSession (l ++ [(k, s)]) k = some s := by
  induction l with
  | nil => simp [lookupSession]
  | cons kv rest ih =>
      by_cases hk : kv.1 = k
      · simp [lookupSession, hk] at h
      · simp [lookupSession, hk] at h ⊢
        exact ih h

theorem lookupSession_append_some {l l2 : List (String × ClientSession)} {k : String}
    {s : ClientSession} (h : lookupSession l k = some s) :
    lookupSession (l ++ l2) k = some s := by
  induction l with
  | nil => simp [lookupSession] at h
  | cons kv rest ih =>
      by_cases hk : kv.1 = k
      · simp [lookupSession, hk] at h ⊢
        exact h
      · simp [lookupSession, hk] at h ⊢
        exact ih h

/-! ## Characterization of handleClientPacket -/

theorem handleClientPacket_existing {st : RelayState} {k : String} {s : ClientSession}
    (data : Bytes) (now : Nat) (dS dC wOk : Bool)
    (h : lookupSession st.sessions k = some s) :
    handleClientPacket st data k now dS dC wOk =
      if wOk then
        { st with sessions := setKey st.sessions k { s with lastActive := now },
                  serverWrites := st.serverWrites ++ [(s.toServerConn, data)] }
      else { st with sessions := setKey st.sessions k { s with lastActive := now } } := by
  simp only [handleClientPacket, h]

theorem handleClientPacket_create {st : RelayState} {k : String}
    (data : Bytes) (now : Nat) (wOk : Bool)
    (h : lookupSession st.sessions k = none) :
    handleClientPacket st data k now true true wOk =
      if wOk then
        { st with sessions := st.sessions ++ [(k, ⟨k, st.nextSock, st.nextSock + 1, now⟩)],
                  openSocks := st.openSocks ++ [(st.nextSock, st.targetConn)]
                    ++ [(st.nextSock + 1, k)],
                  nextSock := st.nextSock + 1 + 1,
                  egress := st.egress ++ [⟨k, st.nextSock⟩],
                  serverWrites := st.serverWrites ++ [(st.nextSock, data)] }
      else
        { st with sessions := st.sessions ++ [(k, ⟨k, st.nextSock, st.nextSock + 1, now⟩)],
                  openSocks := st.openSocks ++ [(st.nextSock, st.targetConn)]
                    ++ [(st.nextSock + 1, k)],
                  nextSock := st.nextSock + 1 + 1,
                  egress := st.egress ++ [⟨k, st.nextSock⟩] } := by
  simp only [handleClientPacket, h]
  cases wOk <;> simp

theorem handleClientPacket_dialServer_fail {st : RelayState} {k : String}
    (data : Bytes) (now : Nat) (dC wOk : Bool)
    (h : lookupSession st.sessions k = none) :
    handleClientPacket st data k now false dC wOk = st := by
  simp [handleClientPacket, h]

theorem handleClientPacket_dialClient_fail_frame {st : RelayState} {k : String}
    (data : Bytes) (now : Nat) (wOk : Bool)
    (h : lookupSession st.sessions k = none) :
    (handleClientPacket st data k now true false wOk).sessions = st.sessions ∧
    (handleClientPacket st data k now true false wOk).egress = st.egress ∧
    (handleClientPacket st data k now true false wOk).serverWrites = st.serverWrites := by
  simp [handleClientPacket, h, closeSock]

theorem handleClientPacket_dialClient_fail {st : RelayState} {k : String}
    (data : Bytes) (now : Nat) (wOk : Bool)
    (h : lookupSession st.sessions k = none)
    (hfresh : ∀ p ∈ st.openSocks, p.1 ≠ st.nextSock) :
    handleClientPacket st data k now true false wOk =
      { st with nextSock := st.nextSock + 1 } := by
  simp only [handleClientPacket, h]
  simp [closeSock, removeSockId_append, removeSockId_eq_self hfresh, removeSockId]

theorem nodup_append_singleton {α : Type} {l : List α} {a : α}
    (h : l.Nodup) (ha : a ∉ l) : (l ++ [a]).Nodup := by
  apply List.Nodup.append h (List.nodup_singleton a)
  intro x hx hxa
  rw [List.mem_singleton] at hxa
  exact ha (hxa ▸ hx)

theorem handleClientPacket_keysNodup {st : RelayState} (data : Bytes) (k : String)
    (now : Nat) (dS dC wOk : Bool) (hnd : (st.sessions.map Prod.fst).Nodup) :
    ((handleClientPacket st data k now dS dC wOk).sessions.map Prod.fst).Nodup := by
  cases hl : lookupSession st.sessions k with
  | some s =>
      rw [handleClientPacket_existing data now dS dC wOk hl]
      cases wOk <;> simp [keys_setKey, hnd]
  | none =>
      cases dS with
      | false =>
          rw [handleClientPacket_dialServer_fail data now dC wOk hl]
          exact hnd
      | true =>
          cases dC with
          | false =>
              rw [(handleClientPacket_dialClient_fail_frame data now wOk hl).1]
              exact hnd
          | true =>
              rw [handleClientPacket_create data now wOk hl]
              have hk : k ∉ st.sessions.map Prod.fst :=
                (lookupSession_eq_none_iff _ _).mp hl
              have hna := nodup_append_singleton hnd hk
              cases wOk <;> simp [hna]

theorem handleRun_keysNodup {st : RelayState} (evs : List PacketEvent)
    (hnd : (st.sessions.map Prod.fst).Nodup) :
    ((handleRun st evs).sessions.map Prod.fst).Nodup := by
  induction evs generalizing st with
  | nil => exact hnd
  | cons e rest ih =>
      rw [handleRun]
      exact ih (handleClientPacket_keysNodup e.data e.clientAddr e.now
        e.dialServerOk e.dialClientOk e.writeOk hnd)

/-! ## Characterization of closeSession and the egress step -/

theorem eraseKey_sublist (l : List (String × ClientSession)) (k : String) :
    (eraseKey l k).Sublist l := by
  induction l with
  | nil => simp [eraseKey]
  | cons kv rest ih =>
      by_cases hk : kv.1 = k
      · rw [eraseKey, if_pos hk]
        exact ih.cons kv
      · rw [eraseKey, if_neg hk]
        exact ih.cons₂ kv

theorem closeSession_absent {st : RelayState} {k : String}
    (h : lookupSession st.sessions k = none) : closeSession st k = st := by
  simp [closeSession, h]

theorem closeSession_present {st : RelayState} {k : String} {s : ClientSession}
    (h : lookupSession st.sessions k = some s) :
    closeSession st k =
      { st with sessions := eraseKey st.sessions k,
                openSocks := removeSockId (removeSockId st.openSocks s.toServerConn)
                  s.toClientConn } := by
  simp [closeSession, h, closeSock]

theorem handleTargetResponsesStep_success {st : RelayState} {t : EgressTask}
    {s : ClientSession} (p : Bytes) (now : Nat) (wOk : Bool)
    (h : lookupSession st.sessions t.key = some s) :
    handleTargetResponsesStep st t (.success p) now wOk =
      (if wOk then
        { st with sessions := setKey st.sessions t.key { s with lastActive := now },
                  clientWrites := st.clientWrites ++ [(s.toClientConn, p)] }
      else
        { st with sessions := setKey st.sessions t.key { s with lastActive := now } },
      true) := by
  simp only [handleTargetResponsesStep, h]
  cases wOk <;> rfl

theorem handleTargetResponsesStep_readError (st : RelayState) (t : EgressTask)
    (now : Nat) (wOk : Bool) :
    handleTargetResponsesStep st t .readError now wOk =
      ({ closeSession st t.key with
         egress := (closeSession st t.key).egress.erase t }, false) := rfl

/-! ## The reaper sweep -/

theorem cleanupStep_expired {tmo now : Nat} {acc : RelayState}
    {kv : String × ClientSession} (h : now - kv.2.lastActive > tmo) :
    cleanupStep tmo now acc kv =
      { acc with sessions := eraseKey acc.sessions kv.1,
                 openSocks := removeSockId (removeSockId acc.openSocks kv.2.toServerConn)
                   kv.2.toClientConn } := by
  simp [cleanupStep, h, closeSock]

theorem cleanupStep_live {tmo now : Nat} {acc : RelayState}
    {kv : String × ClientSession} (h : ¬ (now - kv.2.lastActive > tmo)) :
    cleanupStep tmo now acc kv = acc := by
  simp [cleanupStep, h]

theorem cleanup_fold_sessions_subset {tmo now : Nat} :
    ∀ (l : List (String × ClientSession)) (acc : RelayState)
      (kv : String × ClientSession),
      kv ∈ (l.foldl (cleanupStep tmo now) acc).sessions → kv ∈ acc.sessions := by
  intro l
  induction l with
  | nil => intro acc kv h; exact h
  | cons hd rest ih =>
      intro acc kv h
      rw [List.foldl_cons] at h
      have h2 := ih _ _ h
      by_cases he : now - hd.2.lastActive > tmo
      · rw [cleanupStep_expired he] at h2
        exact (eraseKey_sublist _ _).mem h2
      · rwa [cleanupStep_live he] at h2

theorem cleanup_fold_keys_absent {tmo now : Nat}
    (l : List (String × ClientSession)) (acc : RelayState) (k : String)
    (h : k ∉ acc.sessions.map Prod.fst) :
    k ∉ (l.foldl (cleanupStep tmo now) acc).sessions.map Prod.fst := by
  intro hmem
  rcases List.mem_map.mp hmem with ⟨kv, hkv, hfst⟩
  exact h (List.mem_map.mpr ⟨kv, cleanup_fold_sessions_subset l acc kv hkv, hfst⟩)

theorem cleanup_fold_sock_closed {tmo now : Nat} :
    ∀ (l : List (String × ClientSession)) (acc : RelayState) (n : Nat),
      (∀ p ∈ acc.openSocks, p.1 ≠ n) →
      ∀ p ∈ (l.foldl (cleanupStep tmo now) acc).openSocks, p.1 ≠ n := by
  intro l
  induction l with
  | nil => intro acc n h; exact h
  | cons hd rest ih =>
      intro acc n h
      rw [List.foldl_cons]
      apply ih
      by_cases he : now - hd.2.lastActive > tmo
      · rw [cleanupStep_expired he]
        intro p hp
        exact h p (mem_removeSockId.mp (mem_removeSockId.mp hp).1).1
      · rw [cleanupStep_live he]
        exact h

theorem cleanup_fold_keeps {tmo now : Nat} :
    ∀ (l : List (String × ClientSession)) (acc : RelayState) (k : String)
      (s : ClientSession),
      (k, s) ∈ acc.sessions →
      (∀ kv ∈ l, kv.1 = k → ¬ (now - kv.2.lastActive > tmo)) →
      (k, s) ∈ (l.foldl (cleanupStep tmo now) acc).sessions := by
  intro l
  induction l with
  | nil => intro acc k s hmem _; exact hmem
  | cons hd rest ih =>
      intro acc k s hmem hl
      rw [List.foldl_cons]
      apply ih _ k s
      · by_cases he : now - hd.2.lastActive > tmo
        · rw [cleanupStep_expired he]
          have hk : hd.1 ≠ k := by
            intro heq
            exact hl hd (List.mem_cons_self _ _) heq he
          exact mem_eraseKey.mpr ⟨hmem, fun heq => hk (heq ▸ rfl)⟩
        · rwa [cleanupStep_live he]
      · intro kv hkv hk
        exact hl kv (List.mem_cons_of_mem _ hkv) hk

theorem cleanup_fold_keysNodup {tmo now : Nat} :
    ∀ (l : List (String × ClientSession)) (acc : RelayState),
      (acc.sessions.map Prod.fst).Nodup →
      ((l.foldl (cleanupStep tmo now) acc).sessions.map Prod.fst).Nodup := by
  intro l
  induction l with
  | nil => intro acc h; exact h
  | cons hd rest ih =>
      intro acc h
      rw [List.foldl_cons]
      apply ih
      by_cases he : now - hd.2.lastActive > tmo
      · rw [cleanupStep_expired he]
        exact List.Nodup.sublist ((eraseKey_sublist _ _).map Prod.fst) h
      · rwa [cleanupStep_live he]

theorem cleanup_keeps_lookup {st : RelayState} {k : String} {s : ClientSession} {now : Nat}
    (hnd : (st.sessions.map Prod.fst).Nodup)
    (h : lookupSession st.sessions k = some s)
    (hlive : now - s.lastActive ≤ st.timeout) :
    lookupSession (cleanupSessions st now).sessions k = some s := by
  have hmem := mem_of_lookupSession_eq_some h
  have hkeep : (k, s) ∈ (cleanupSessions st now).sessions := by
    apply cleanup_fold_keeps st.sessions st k s hmem
    intro kv hkv hk
    have h2 : (k, kv.2) ∈ st.sessions := by
      rw [← hk]
      exact hkv
    have hv : kv.2 = s := nodup_keys_unique hnd h2 hmem
    rw [hv]
    omega
  exact lookupSession_of_mem_nodup (cleanup_fold_keysNodup st.sessions st hnd) hkeep

/-! ## The migration sweep -/

theorem migrateStep_success {nt : String} {dialOk : String → Bool} {acc : RelayState}
    {kv : String × ClientSession} (h : dialOk kv.1 = true) :
    migrateStep nt dialOk acc kv =
      { acc with
        sessions := setKey acc.sessions kv.1 { kv.2 with toServerConn := acc.nextSock },
        openSocks := removeSockId acc.openSocks kv.2.toServerConn ++ [(acc.nextSock, nt)],
        nextSock := acc.nextSock + 1,
        egress := acc.egress ++ [⟨kv.1, acc.nextSock⟩] } := by
  simp [migrateStep, h, closeSock]

theorem migrateStep_fail {nt : String} {dialOk : String → Bool} {acc : RelayState}
    {kv : String × ClientSession} (h : dialOk kv.1 = false) :
    migrateStep nt dialOk acc kv =
      { acc with
        sessions := eraseKey acc.sessions kv.1,
        openSocks := removeSockId (removeSockId acc.openSocks kv.2.toServerConn)
          kv.2.toClientConn } := by
  simp [migrateStep, h, closeSock]

theorem migrate_fold_nextSock_le {nt : String} {dialOk : String → Bool} :
    ∀ (l : List (String × ClientSession)) (acc : RelayState),
      acc.nextSock ≤ (l.foldl (migrateStep nt dialOk) acc).nextSock := by
  intro l
  induction l with
  | nil => intro acc; exact Nat.le_refl _
  | cons hd rest ih =>
      intro acc
      rw [List.foldl_cons]
      refine Nat.le_trans ?_ (ih _)
      cases h : dialOk hd.1 with
      | false => rw [migrateStep_fail h]
      | true =>
          rw [migrateStep_success h]
          exact Nat.le_succ _

theorem migrate_fold_lookup_frame {nt : String} {dialOk : String → Bool} {k : String} :
    ∀ (l : List (String × ClientSession)) (acc : RelayState),
      k ∉ l.map Prod.fst →
      lookupSession (l.foldl (migrateStep nt dialOk) acc).sessions k =
        lookupSession acc.sessions k := by
  intro l
  induction l with
  | nil => intro acc _; rfl
  | cons hd rest ih =>
      intro acc hk
      have h1 : hd.1 ≠ k := by
        intro he
        exact hk (by rw [List.map_cons, he]; exact List.mem_cons_self _ _)
      have h2 : k ∉ rest.map Prod.fst := by
        intro he
        exact hk (by rw [List.map_cons]; exact List.mem_cons_of_mem _ he)
      rw [List.foldl_cons, ih _ h2]
      cases h : dialOk hd.1 with
      | false =>
          rw [migrateStep_fail h]
          exact lookupSession_eraseKey_ne h1
      | true =>
          rw [migrateStep_success h]
          exact lookupSession_setKey_ne _ h1

theorem migrate_fold_keys_subset {nt : String} {dialOk : String → Bool} {k : String} :
    ∀ (l : List (String × ClientSession)) (acc : RelayState),
      k ∈ (l.foldl (migrateStep nt dialOk) acc).sessions.map Prod.fst →
      k ∈ acc.sessions.map Prod.fst := by
  intro l
  induction l with
  | nil => intro acc h; exact h
  | cons hd rest ih =>
      intro acc h
      rw [List.foldl_cons] at h
      have h2 := ih _ h
      cases hd1 : dialOk hd.1 with
      | false =>
          rw [migrateStep_fail hd1] at h2
          simp only at h2
          rcases List.mem_map.mp h2 with ⟨kv, hkv, hfst⟩
          exact List.mem_map.mpr ⟨kv, (eraseKey_sublist _ _).mem hkv, hfst⟩
      | true =>
          rw [migrateStep_success hd1] at h2
          simp only at h2
          rwa [keys_setKey] at h2

theorem migrate_fold_sock_open {nt : String} {dialOk : String → Bool} :
    ∀ (l : List (String × ClientSession)) (acc : RelayState) (p : Nat × String),
      p ∈ acc.openSocks →
      (∀ kv ∈ l, p.1 ≠ kv.2.toServerConn ∧ p.1 ≠ kv.2.toClientConn) →
      p ∈ (l.foldl (migrateStep nt dialOk) acc).openSocks := by
  intro l
  induction l with
  | nil => intro acc p hp _; exact hp
  | cons hd rest ih =>
      intro acc p hp hl
      rw [List.foldl_cons]
      have hhd := hl hd (List.mem_cons_self _ _)
      apply ih
      · cases h : dialOk hd.1 with
        | false =>
            rw [migrateStep_fail h]
            exact mem_removeSockId.mpr ⟨mem_removeSockId.mpr ⟨hp, hhd.1⟩, hhd.2⟩
        | true =>
            rw [migrateStep_success h]
            exact List.mem_append_left _ (mem_removeSockId.mpr ⟨hp, hhd.1⟩)
      · intro kv hkv
        exact hl kv (List.mem_cons_of_mem _ hkv)

theorem migrate_fold_sock_closed {nt : String} {dialOk : String → Bool} :
    ∀ (l : List (String × ClientSession)) (acc : RelayState) (n : Nat),
      (∀ p ∈ acc.openSocks, p.1 ≠ n) → n < acc.nextSock →
      ∀ p ∈ (l.foldl (migrateStep nt dialOk) acc).openSocks, p.1 ≠ n := by
  intro l
  induction l with
  | nil => intro acc n h _; exact h
  | cons hd rest ih =>
      intro acc n h hn
      rw [List.foldl_cons]
      apply ih
      · cases hd1 : dialOk hd.1 with
        | false =>
            rw [migrateStep_fail hd1]
            intro p hp
            exact h p (mem_removeSockId.mp (mem_removeSockId.mp hp).1).1
        | true =>
            rw [migrateStep_success hd1]
            intro p hp
            rcases List.mem_append.mp hp with hp1 | hp1
            · exact h p (mem_removeSockId.mp hp1).1
            · rw [List.mem_singleton] at hp1
              rw [hp1]
              exact Nat.ne_of_gt hn
      · cases hd1 : dialOk hd.1 with
        | false =>
            rw [migrateStep_fail hd1]
            exact hn
        | true =>
            rw [migrateStep_success hd1]
            exact Nat.lt_succ_of_lt hn

theorem migrate_fold_egress_mono {nt : String} {dialOk : String → Bool} :
    ∀ (l : List (String × ClientSession)) (acc : RelayState) (t : EgressTask),
      t ∈ acc.egress → t ∈ (l.foldl (migrateStep nt dialOk) acc).egress := by
  intro l
  induction l with
  | nil => intro acc t h; exact h
  | cons hd rest ih =>
      intro acc t h
      rw [List.foldl_cons]
      apply ih
      cases hd1 : dialOk hd.1 with
      | false =>
          rw [migrateStep_fail hd1]
          exact h
      | true =>
          rw [migrateStep_success hd1]
          exact List.mem_append_left _ h

theorem handleClientPacket_existing_true {st : RelayState} {k : String} {s : ClientSession}
    (data : Bytes) (now : Nat) (dS dC : Bool)
    (h : lookupSession st.sessions k = some s) :
    handleClientPacket st data k now dS dC true =
      { st with sessions := setKey st.sessions k { s with lastActive := now },
                serverWrites := st.serverWrites ++ [(s.toServerConn, data)] } := by
  rw [handleClientPacket_existing data now dS dC true h]
  rfl

theorem handleTargetResponsesStep_success_true_fst {st : RelayState} {t : EgressTask}
    {s : ClientSession} (p : Bytes) (now : Nat)
    (h : lookupSession st.sessions t.key = some s) :
    (handleTargetResponsesStep st t (.success p) now true).1 =
      { st with sessions := setKey st.sessions t.key { s with lastActive := now },
                clientWrites := st.clientWrites ++ [(s.toClientConn, p)] } := by
  rw [handleTargetResponsesStep_success p now true h]
  rfl

theorem handleClientPacket_timeout_const (st : RelayState) (data : Bytes) (k : String)
    (now : Nat) (dS dC wOk : Bool) :
    (handleClientPacket st data k now dS dC wOk).timeout = st.timeout := by
  cases hl : lookupSession st.sessions k with
  | some s =>
      rw [handleClientPacket_existing data now dS dC wOk hl]
      cases wOk <;> rfl
  | none =>
      cases dS with
      | false => rw [handleClientPacket_dialServer_fail data now dC wOk hl]
      | true =>
          cases dC with
          | false => simp [handleClientPacket, hl, closeSock]
          | true =>
              rw [handleClientPacket_create data now wOk hl]
              cases wOk <;> rfl

/-! ## Claim theorems -/

/-- C1: the claim states that after a successful backend-address migration the
old egress task exits after its read error without removing the migrated
session from the table or closing its new sockets.  The code contradicts
this: evaluated on a one-session state, migration does preserve the entry
(same key, same session apart from the re-homed backend socket, client-facing
socket 1 untouched, new backend socket 2 dialed at the new target, old task
still running), but the subsequent read-error iteration of the old egress
task calls closeSession on the client key, which deletes the freshly
migrated entry and closes both of its sockets (the open-socket list becomes
empty).  This theorem evaluates the code at that failing input. -/
theorem C1_migration_teardown_bug :
    lookupSession (migrateSessionsToNewTarget sampleState "newT"
        (fun _ => true)).sessions "c" = some ⟨"c", 2, 1, 0⟩ ∧
    EgressTask.mk "c" 0 ∈ (migrateSessionsToNewTarget sampleState "newT"
        (fun _ => true)).egress ∧
    (2, "newT") ∈ (migrateSessionsToNewTarget sampleState "newT"
        (fun _ => true)).openSocks ∧
    (1, "c") ∈ (migrateSessionsToNewTarget sampleState "newT"
        (fun _ => true)).openSocks ∧
    lookupSession ((handleTargetResponsesStep
        (migrateSessionsToNewTarget sampleState "newT" (fun _ => true))
        ⟨"c", 0⟩ .readError 1 true).1).sessions "c" = none ∧
    ((handleTargetResponsesStep
        (migrateSessionsToNewTarget sampleState "newT" (fun _ => true))
        ⟨"c", 0⟩ .readError 1 true).1).openSocks = [] := by
  decide

/-- C6: when socket creation fails inside the getOrCreate region, no entry is
inserted, any socket already opened for the attempt is closed, no egress task
is started, and the datagram is dropped.  First conjunct: a backend-facing
dial failure leaves the state entirely unchanged.  Remaining conjuncts: a
client-facing dial failure (after the backend-facing socket was opened)
leaves the table, the open-socket list, the running tasks and the write log
unchanged, the just-opened backend socket having been closed again. -/
theorem C6_getOrCreate_failure (st : RelayState) (data : Bytes) (k : String)
    (now : Nat) (dC wOk : Bool)
    (hnone : lookupSession st.sessions k = none)
    (hfresh : ∀ p ∈ st.openSocks, p.1 ≠ st.nextSock) :
    handleClientPacket st data k now false dC wOk = st ∧
    (handleClientPacket st data k now true false wOk).sessions = st.sessions ∧
    (handleClientPacket st data k now true false wOk).openSocks = st.openSocks ∧
    (handleClientPacket st data k now true false wOk).egress = st.egress ∧
    (handleClientPacket st data k now true false wOk).serverWrites = st.serverWrites := by
  refine ⟨handleClientPacket_dialServer_fail data now dC wOk hnone, ?_, ?_, ?_, ?_⟩ <;>
    rw [handleClientPacket_dialClient_fail data now wOk hnone hfresh]

/-- Witness for C6 at a concrete input: client b is unknown to sampleState
and both failure modes leave the state unchanged as stated. -/
theorem C6_witness :
    handleClientPacket sampleState [9] "b" 7 false true true = sampleState ∧
    (handleClientPacket sampleState [9] "b" 7 true false true).sessions =
        sampleState.sessions ∧
    (handleClientPacket sampleState [9] "b" 7 true false true).openSocks =
        sampleState.openSocks ∧
    (handleClientPacket sampleState [9] "b" 7 true false true).egress =
        sampleState.egress ∧
    (handleClientPacket sampleState [9] "b" 7 true false true).serverWrites =
        sampleState.serverWrites :=
  C6_getOrCreate_failure sampleState [9] "b" 7 true true (by decide) (by decide)

/-- C8: a failed write never tears down a session.  First component: a
forward-path write failure on an existing session leaves the entry in the
table (with lastActive refreshed), the open sockets, the running egress
tasks and the backend write log unchanged (the datagram is dropped).  Second
component: a reply-path write failure inside the egress loop leaves the loop
running (the step returns true), the entry in the table, the sockets open
and the client write log unchanged.  Only the read side (deadline expiry or
read error) leads to closeSession. -/
theorem C8_write_failure_keeps_session :
    (∀ (st : RelayState) (data : Bytes) (k : String) (now : Nat)
        (s : ClientSession) (dS dC : Bool),
        lookupSession st.sessions k = some s →
        lookupSession (handleClientPacket st data k now dS dC false).sessions k =
            some { s with lastActive := now } ∧
        (handleClientPacket st data k now dS dC false).openSocks = st.openSocks ∧
        (handleClientPacket st data k now dS dC false).egress = st.egress ∧
        (handleClientPacket st data k now dS dC false).serverWrites = st.serverWrites) ∧
    (∀ (st : RelayState) (t : EgressTask) (p : Bytes) (now : Nat) (s : ClientSession),
        lookupSession st.sessions t.key = some s →
        (handleTargetResponsesStep st t (.success p) now false).2 = true ∧
        lookupSession (handleTargetResponsesStep st t (.success p) now false).1.sessions
            t.key = some { s with lastActive := now } ∧
        (handleTargetResponsesStep st t (.success p) now false).1.openSocks =
            st.openSocks ∧
        (handleTargetResponsesStep st t (.success p) now false).1.egress = st.egress ∧
        (handleTargetResponsesStep st t (.success p) now false).1.clientWrites =
            st.clientWrites) := by
  constructor
  · intro st data k now s dS dC h
    rw [handleClientPacket_existing data now dS dC false h]
    simp [lookupSession_setKey_self { s with lastActive := now } h]
  · intro st t p now s h
    rw [handleTargetResponsesStep_success p now false h]
    simp [lookupSession_setKey_self { s with lastActive := now } h]

/-- Witness for C8 at a concrete input: a failed forward write and a failed
reply write for the established session of sampleState leave it intact. -/
theorem C8_witness :
    lookupSession (handleClientPacket sampleState [7] "c" 5 true true false).sessions
        "c" = some { sampleSession with lastActive := 5 } ∧
    (handleTargetResponsesStep sampleState ⟨"c", 0⟩ (.success [8]) 6 false).2 = true :=
  ⟨(C8_write_failure_keeps_session.1 sampleState [7] "c" 5 sampleSession true true
      (by decide)).1,
   (C8_write_failure_keeps_session.2 sampleState ⟨"c", 0⟩ [8] 6 sampleSession
      (by decide)).1⟩

/-- C9: session removal is idempotent.  Removing an absent key is a no-op
that leaves the state unchanged, and the composed teardown (close both
sockets, delete the entry) applied twice equals applying it once. -/
theorem C9_closeSession_idempotent :
    (∀ (st : RelayState) (k : String),
        lookupSession st.sessions k = none → closeSession st k = st) ∧
    (∀ (st : RelayState) (k : String),
        closeSession (closeSession st k) k = closeSession st k) := by
  constructor
  · intro st k h
    exact closeSession_absent h
  · intro st k
    cases hl : lookupSession st.sessions k with
    | none => simp only [closeSession_absent hl]
    | some s =>
        apply closeSession_absent
        rw [closeSession_present hl]
        exact lookupSession_eraseKey_self st.sessions k

/-- Witness for C9 at a concrete input: key b is absent from sampleState, its
removal is a no-op, and removing the present key c twice equals removing it
once. -/
theorem C9_witness :
    closeSession sampleState "b" = sampleState ∧
    closeSession (closeSession sampleState "c") "c" = closeSession sampleState "c" :=
  ⟨C9_closeSession_idempotent.1 sampleState "b" (by decide),
   C9_closeSession_idempotent.2 sampleState "c"⟩

/-- C2: at most one session per client identity at any time, and exactly one
session is created per identity.  First component: along any serialized
sequence of handleClientPacket invocations (arbitrary interleavings serialize
because the whole lookup-create-insert-spawn region runs under the table-wide
lock), every client key occurs at most once in the table.  Second component
(the loser observes the winner): when the key is already present, the
invocation changes no table key, allocates no socket, spawns no egress task,
and returns with the existing session merely refreshed.  Third component
(the winner): when the key is absent and both dials succeed, exactly one
entry and exactly one egress task are created for that key. -/
theorem C2_unique_session_per_client :
    (∀ (st : RelayState) (evs : List PacketEvent) (k : String),
        (st.sessions.map Prod.fst).Nodup →
        ((handleRun st evs).sessions.map Prod.fst).count k ≤ 1) ∧
    (∀ (st : RelayState) (data : Bytes) (k : String) (now : Nat) (dS dC wOk : Bool)
        (s : ClientSession), lookupSession st.sessions k = some s →
        (handleClientPacket st data k now dS dC wOk).sessions.map Prod.fst =
            st.sessions.map Prod.fst ∧
        (handleClientPacket st data k now dS dC wOk).nextSock = st.nextSock ∧
        (handleClientPacket st data k now dS dC wOk).openSocks = st.openSocks ∧
        (handleClientPacket st data k now dS dC wOk).egress = st.egress ∧
        lookupSession (handleClientPacket st data k now dS dC wOk).sessions k =
            some { s with lastActive := now }) ∧
    (∀ (st : RelayState) (data : Bytes) (k : String) (now : Nat) (wOk : Bool),
        lookupSession st.sessions k = none →
        lookupSession (handleClientPacket st data k now true true wOk).sessions k =
            some ⟨k, st.nextSock, st.nextSock + 1, now⟩ ∧
        (handleClientPacket st data k now true true wOk).egress =
            st.egress ++ [⟨k, st.nextSock⟩] ∧
        (handleClientPacket st data k now true true wOk).sessions.map Prod.fst =
            st.sessions.map Prod.fst ++ [k]) := by
  refine ⟨?_, ?_, ?_⟩
  · intro st evs k hnd
    exact List.nodup_iff_count_le_one.mp (handleRun_keysNodup evs hnd) k
  · intro st data k now dS dC wOk s h
    rw [handleClientPacket_existing data now dS dC wOk h]
    cases wOk <;>
      simp [keys_setKey, lookupSession_setKey_self { s with lastActive := now } h]
  · intro st data k now wOk h
    rw [handleClientPacket_create data now wOk h]
    cases wOk <;> simp [lookupSession_append_none _ h]

/-- Witness for C2 at concrete inputs: two packets from the unknown client b
arriving back to back create exactly one entry for b, and the second
invocation (the loser) neither allocates a socket nor spawns a task. -/
theorem C2_witness :
    (((handleRun sampleState
        [⟨[1], "b", 3, true, true, true⟩, ⟨[2], "b", 4, true, true, true⟩]).sessions.map
          Prod.fst).count "b" ≤ 1) ∧
    (handleClientPacket (handleClientPacket sampleState [1] "b" 3 true true true)
        [2] "b" 4 true true true).nextSock =
      (handleClientPacket sampleState [1] "b" 3 true true true).nextSock ∧
    (handleClientPacket (handleClientPacket sampleState [1] "b" 3 true true true)
        [2] "b" 4 true true true).egress =
      (handleClientPacket sampleState [1] "b" 3 true true true).egress :=
  ⟨C2_unique_session_per_client.1 sampleState
      [⟨[1], "b", 3, true, true, true⟩, ⟨[2], "b", 4, true, true, true⟩] "b" (by decide),
   (C2_unique_session_per_client.2.1 (handleClientPacket sampleState [1] "b" 3 true true true)
      [2] "b" 4 true true true ⟨"b", 2, 3, 3⟩ (by decide)).2.1,
   (C2_unique_session_per_client.2.1 (handleClientPacket sampleState [1] "b" 3 true true true)
      [2] "b" 4 true true true ⟨"b", 2, 3, 3⟩ (by decide)).2.2.2.1⟩

/-- C3: forwarding fidelity.  For a datagram that fits in the configured
receive buffer, the ingress loop receives it whole, the defensive copy made
before the per-packet goroutine is spawned (main.go lines 148-150) equals the
datagram exactly (so the reuse of the receive buffer by later datagrams
cannot alias it: the goroutine holds an independent value), and the forward
write appends exactly that byte sequence to the backend socket of the
existing session. -/
theorem C3_forwarding_fidelity (st : RelayState) (buffer dgram : Bytes) (k : String)
    (now : Nat) (dS dC : Bool) (s : ClientSession)
    (hbuf : buffer.length = st.bufferSize)
    (hlen : dgram.length ≤ st.bufferSize)
    (hs : lookupSession st.sessions k = some s) :
    dataCopy (recvInto buffer dgram).2 (recvInto buffer dgram).1 = dgram ∧
    (handleClientPacket st (dataCopy (recvInto buffer dgram).2 (recvInto buffer dgram).1)
        k now dS dC true).serverWrites =
      st.serverWrites ++ [(s.toServerConn, dgram)] := by
  have hmin : min dgram.length buffer.length = dgram.length :=
    Nat.min_eq_left (hbuf ▸ hlen)
  have hcopy : dataCopy (recvInto buffer dgram).2 (recvInto buffer dgram).1 = dgram := by
    simp only [recvInto, dataCopy]
    rw [hmin, List.take_length, List.take_left]
  refine ⟨hcopy, ?_⟩
  rw [hcopy, handleClientPacket_existing_true dgram now dS dC hs]

/-- Witness for C3 at a concrete input: a two-byte datagram received into the
three-byte buffer of tinyState is copied and forwarded verbatim. -/
theorem C3_witness :
    dataCopy (recvInto [0, 0, 0] [7, 8]).2 (recvInto [0, 0, 0] [7, 8]).1 = [7, 8] ∧
    (handleClientPacket tinyState
        (dataCopy (recvInto [0, 0, 0] [7, 8]).2 (recvInto [0, 0, 0] [7, 8]).1)
        "c" 9 true true true).serverWrites =
      tinyState.serverWrites ++ [(0, [7, 8])] :=
  C3_forwarding_fidelity tinyState [0, 0, 0] [7, 8] "c" 9 true true sampleSession
    (by decide) (by decide) (by decide)

/-- C4 counterexample: the claim asserts that for every interleaving of the
concurrent per-packet handlers the backend sees datagrams in arrival order.
The code spawns one goroutine per datagram (main.go line 153) and the
forward write (line 214) is performed outside any lock, so the interleaving
in which the handler of the second-arrived datagram runs before the handler
of the first is among the behaviors of the code.  Evaluated on sampleState
with datagrams [1] (arrived first) and [2] (arrived second) and that
schedule, the backend write log is [2] then [1], not the arrival order. -/
theorem C4_counterexample :
    (handleClientPacket (handleClientPacket sampleState [2] "c" 1 true true true)
        [1] "c" 2 true true true).serverWrites = [(0, [2]), (0, [1])] ∧
    [((0 : Nat), [2]), (0, [1])] ≠ [((0 : Nat), ([1] : Bytes)), (0, [2])] := by
  decide

/-- C4 as amended: within one session, replies are delivered to the client in
backend-arrival order (the egress loop is the single sequential reader and
writer of that path), and forward datagrams reach the backend in arrival
order whenever the per-packet handlers happen to execute in spawn order;
there exist interleavings of the concurrent handlers that reorder the
forward writes, exhibited by the counterexample. -/
theorem C4_per_session_ordering :
    (∀ (st : RelayState) (t : EgressTask) (s : ClientSession) (evs : List (Bytes × Nat)),
        lookupSession st.sessions t.key = some s →
        (egressRun st t evs).clientWrites =
          st.clientWrites ++ evs.map (fun e => (s.toClientConn, e.1))) ∧
    (∀ (st : RelayState) (k : String) (s : ClientSession) (evs : List (Bytes × Nat)),
        lookupSession st.sessions k = some s →
        (forwardRun st k evs).serverWrites =
          st.serverWrites ++ evs.map (fun e => (s.toServerConn, e.1))) := by
  constructor
  · intro st t s evs
    induction evs generalizing st s with
    | nil =>
        intro h
        simp [egressRun]
    | cons e rest ih =>
        intro h
        obtain ⟨p, now⟩ := e
        rw [egressRun, handleTargetResponsesStep_success_true_fst p now h]
        rw [ih _ { s with lastActive := now }
          (lookupSession_setKey_self { s with lastActive := now } h)]
        simp
  · intro st k s evs
    induction evs generalizing st s with
    | nil =>
        intro h
        simp [forwardRun]
    | cons e rest ih =>
        intro h
        obtain ⟨d, now⟩ := e
        rw [forwardRun, handleClientPacket_existing_true d now true true h]
        rw [ih _ { s with lastActive := now }
          (lookupSession_setKey_self { s with lastActive := now } h)]
        simp

/-- Witness for C4 at concrete inputs: two backend replies pumped by the
egress loop of sampleState reach the client in arrival order, and two
datagrams forwarded in spawn order reach the backend in arrival order. -/
theorem C4_witness :
    (egressRun sampleState ⟨"c", 0⟩ [([5], 3), ([6], 4)]).clientWrites =
      sampleState.clientWrites ++
        [([5], 3), ([6], 4)].map (fun e => (sampleSession.toClientConn, e.1)) ∧
    (forwardRun sampleState "c" [([1], 3), ([2], 4)]).serverWrites =
      sampleState.serverWrites ++
        [([1], 3), ([2], 4)].map (fun e => (sampleSession.toServerConn, e.1)) :=
  ⟨C4_per_session_ordering.1 sampleState ⟨"c", 0⟩ sampleSession [([5], 3), ([6], 4)]
      (by decide),
   C4_per_session_ordering.2 sampleState "c" sampleSession [([1], 3), ([2], 4)]
      (by decide)⟩

/-- C7: on a reaper tick at time now, a table entry is removed, with both of
its sockets closed, if and only if now minus its lastActive exceeds the
configured timeout; entries at or under the timeout are left in the table
unchanged, and the sweep never adds entries.  Together with the fixed
30-second tick period this bounds idle-session lifetime by one reaper period
plus the timeout window. -/
theorem C7_reaper_eviction (st : RelayState) (now : Nat) (k : String) (s : ClientSession)
    (hnd : (st.sessions.map Prod.fst).Nodup) (hmem : (k, s) ∈ st.sessions) :
    (now - s.lastActive > st.timeout →
        k ∉ (cleanupSessions st now).sessions.map Prod.fst ∧
        (∀ p ∈ (cleanupSessions st now).openSocks, p.1 ≠ s.toServerConn) ∧
        (∀ p ∈ (cleanupSessions st now).openSocks, p.1 ≠ s.toClientConn)) ∧
    (now - s.lastActive ≤ st.timeout → (k, s) ∈ (cleanupSessions st now).sessions) ∧
    (∀ kv ∈ (cleanupSessions st now).sessions, kv ∈ st.sessions) := by
  refine ⟨?_, ?_, ?_⟩
  · intro hexp
    rcases List.append_of_mem hmem with ⟨l1, l2, hsplit⟩
    have hfold : cleanupSessions st now =
        l2.foldl (cleanupStep st.timeout now)
          (cleanupStep st.timeout now (l1.foldl (cleanupStep st.timeout now) st) (k, s)) := by
      rw [cleanupSessions, hsplit, List.foldl_append, List.foldl_cons]
    have hstep :
        cleanupStep st.timeout now (l1.foldl (cleanupStep st.timeout now) st) (k, s) =
          { l1.foldl (cleanupStep st.timeout now) st with
            sessions :=
              eraseKey (l1.foldl (cleanupStep st.timeout now) st).sessions k,
            openSocks :=
              removeSockId
                (removeSockId (l1.foldl (cleanupStep st.timeout now) st).openSocks
                  s.toServerConn) s.toClientConn } :=
      cleanupStep_expired hexp
    refine ⟨?_, ?_, ?_⟩
    · rw [hfold, hstep]
      apply cleanup_fold_keys_absent
      exact not_mem_keys_eraseKey _ _
    · rw [hfold, hstep]
      apply cleanup_fold_sock_closed
      intro p hp
      exact (mem_removeSockId.mp (mem_removeSockId.mp hp).1).2
    · rw [hfold, hstep]
      apply cleanup_fold_sock_closed
      intro p hp
      exact (mem_removeSockId.mp hp).2
  · intro hlive
    apply cleanup_fold_keeps st.sessions st k s hmem
    intro kv hkv hk
    have h2 : (k, kv.2) ∈ st.sessions := by
      rw [← hk]
      exact hkv
    have hv : kv.2 = s := nodup_keys_unique hnd h2 hmem
    rw [hv]
    omega
  · intro kv hkv
    exact cleanup_fold_sessions_subset st.sessions st kv hkv

/-- Witness for C7 at a concrete input: on the tick at time 120 the idle
session d of c7State (last active at 0, timeout 50) is evicted while the
active session c (last active at 100) is retained unchanged. -/
theorem C7_witness :
    "d" ∉ (cleanupSessions c7State 120).sessions.map Prod.fst ∧
    ("c", ⟨"c", 0, 1, 100⟩) ∈ (cleanupSessions c7State 120).sessions := by
  have hd := C7_reaper_eviction c7State 120 "d" idleSession (by decide) (by decide)
  have hc := C7_reaper_eviction c7State 120 "c" ⟨"c", 0, 1, 100⟩ (by decide) (by decide)
  exact ⟨(hd.1 (by decide)).1, hc.2.1 (by decide)⟩

/-- C10 counterexample: the claim states that a session whose client keeps
sending can only be torn down by the egress read deadline or read error.
Evaluated on sampleState, whose single session is fresh (its idle age 0 is
not above the timeout, so the reaper would retain it), a migration sweep in
which the new dial fails removes the session from the table with no egress
read step and no reaper eviction involved, refuting the only-clause. -/
theorem C10_counterexample :
    (0 : Nat) - sampleSession.lastActive ≤ sampleState.timeout ∧
    lookupSession (migrateSessionsToNewTarget sampleState "newT"
        (fun _ => false)).sessions "c" = none := by
  decide

/-- C10 as amended: for every inbound datagram handled for an existing
session, lastActive is set to the handling time under the session lock
before the forward write is attempted and stays refreshed whether or not
that write succeeds (first component, quantified over the write outcome);
handleClientPacket never removes any table entry (second component); and a
session refreshed within the idle timeout of a reaper tick survives that
tick (third component), so a client that keeps sending is never evicted by
the reaper.  Besides the egress read deadline or read error, the only other
teardown is a migration sweep whose new-socket creation fails for that
session, as exhibited by the counterexample. -/
theorem C10_keepalive :
    (∀ (st : RelayState) (data : Bytes) (k : String) (now : Nat) (dS dC wOk : Bool)
        (s : ClientSession), lookupSession st.sessions k = some s →
        lookupSession (handleClientPacket st data k now dS dC wOk).sessions k =
          some { s with lastActive := now }) ∧
    (∀ (st : RelayState) (data : Bytes) (k k2 : String) (now : Nat) (dS dC wOk : Bool)
        (s2 : ClientSession), lookupSession st.sessions k2 = some s2 →
        ∃ s3, lookupSession (handleClientPacket st data k now dS dC wOk).sessions k2 =
          some s3) ∧
    (∀ (st : RelayState) (data : Bytes) (k : String) (now now2 : Nat) (dS dC wOk : Bool)
        (s : ClientSession),
        (st.sessions.map Prod.fst).Nodup →
        lookupSession st.sessions k = some s →
        now2 - now ≤ st.timeout →
        lookupSession
            (cleanupSessions (handleClientPacket st data k now dS dC wOk) now2).sessions
            k = some { s with lastActive := now }) := by
  have hrefresh : ∀ (st : RelayState) (data : Bytes) (k : String) (now : Nat)
      (dS dC wOk : Bool) (s : ClientSession), lookupSession st.sessions k = some s →
      lookupSession (handleClientPacket st data k now dS dC wOk).sessions k =
        some { s with lastActive := now } := by
    intro st data k now dS dC wOk s h
    rw [handleClientPacket_existing data now dS dC wOk h]
    cases wOk <;> simp [lookupSession_setKey_self { s with lastActive := now } h]
  refine ⟨hrefresh, ?_, ?_⟩
  · intro st data k k2 now dS dC wOk s2 h2
    by_cases hk : k = k2
    · subst hk
      exact ⟨{ s2 with lastActive := now }, hrefresh st data k now dS dC wOk s2 h2⟩
    · cases hl : lookupSession st.sessions k with
      | some s =>
          refine ⟨s2, ?_⟩
          rw [handleClientPacket_existing data now dS dC wOk hl]
          cases wOk <;> simp [lookupSession_setKey_ne _ hk, h2]
      | none =>
          cases dS with
          | false =>
              rw [handleClientPacket_dialServer_fail data now dC wOk hl]
              exact ⟨s2, h2⟩
          | true =>
              cases dC with
              | false =>
                  rw [(handleClientPacket_dialClient_fail_frame data now wOk hl).1]
                  exact ⟨s2, h2⟩
              | true =>
                  refine ⟨s2, ?_⟩
                  rw [handleClientPacket_create data now wOk hl]
                  cases wOk <;> simp [lookupSession_append_some h2]
  · intro st data k now now2 dS dC wOk s hnd h hlive
    have hnd2 := handleClientPacket_keysNodup data k now dS dC wOk hnd
    have hlook := hrefresh st data k now dS dC wOk s h
    have htmo := handleClientPacket_timeout_const st data k now dS dC wOk
    apply cleanup_keeps_lookup hnd2 hlook
    rw [htmo]
    simpa using hlive

/-- Witness for C10 at a concrete input: after client c of sampleState sends
at time 10 (with the forward write failing), the reaper tick at time 60
retains the session with its refreshed timestamp. -/
theorem C10_witness :
    lookupSession
        (cleanupSessions (handleClientPacket sampleState [4] "c" 10 true true false)
          60).sessions "c" = some { sampleSession with lastActive := 10 } :=
  C10_keepalive.2.2 sampleState [4] "c" 10 60 true true false sampleSession
    (by decide) (by decide) (by decide)

/-- C5: partial-migration resilience.  During one migration sweep, for every
entry of the table: if the new dial fails for that entry, exactly that
session is torn down (its entry is removed and both its backend-facing and
remaining client-facing sockets are closed); if the new dial succeeds, the
sweep continues for it as for every other entry, leaving the entry under the
same key with only its backend socket re-homed to a fresh socket dialed at
the new target, its client-facing socket still open, and a fresh egress task
spawned for the new socket.  Migration is never an all-or-nothing
transaction.  The hypotheses are the well-formedness of reachable states:
distinct keys, socket identifiers below the allocation counter, the two
sockets of a session distinct, sockets of different sessions distinct, and
the client-facing socket open. -/
theorem C5_partial_migration (st : RelayState) (newTarget : String)
    (dialOk : String → Bool) (k : String) (s : ClientSession)
    (hnd : (st.sessions.map Prod.fst).Nodup)
    (hlt : ∀ kv ∈ st.sessions, kv.2.toServerConn < st.nextSock ∧
        kv.2.toClientConn < st.nextSock)
    (hne : s.toServerConn ≠ s.toClientConn)
    (hdisj : ∀ kv ∈ st.sessions, kv.1 ≠ k →
        kv.2.toServerConn ≠ s.toClientConn ∧ kv.2.toClientConn ≠ s.toClientConn)
    (hopen : ∃ d, (s.toClientConn, d) ∈ st.openSocks)
    (hmem : (k, s) ∈ st.sessions) :
    (dialOk k = false →
        k ∉ (migrateSessionsToNewTarget st newTarget dialOk).sessions.map Prod.fst ∧
        (∀ p ∈ (migrateSessionsToNewTarget st newTarget dialOk).openSocks,
            p.1 ≠ s.toServerConn) ∧
        (∀ p ∈ (migrateSessionsToNewTarget st newTarget dialOk).openSocks,
            p.1 ≠ s.toClientConn)) ∧
    (dialOk k = true →
        ∃ n, lookupSession (migrateSessionsToNewTarget st newTarget dialOk).sessions k =
              some { s with toServerConn := n } ∧
            (n, newTarget) ∈ (migrateSessionsToNewTarget st newTarget dialOk).openSocks ∧
            EgressTask.mk k n ∈ (migrateSessionsToNewTarget st newTarget dialOk).egress ∧
            ∃ d, (s.toClientConn, d) ∈
              (migrateSessionsToNewTarget st newTarget dialOk).openSocks) := by
  rcases List.append_of_mem hmem with ⟨l1, l2, hsplit⟩
  have hkeys : st.sessions.map Prod.fst = l1.map Prod.fst ++ k :: l2.map Prod.fst := by
    rw [hsplit]
    simp
  have hnd2 : (l1.map Prod.fst ++ k :: l2.map Prod.fst).Nodup := by
    rw [← hkeys]
    exact hnd
  rcases List.nodup_append.mp hnd2 with ⟨hn1, hn2, hdj12⟩
  have hkl2 : k ∉ l2.map Prod.fst := (List.nodup_cons.mp hn2).1
  have hkl1 : k ∉ l1.map Prod.fst := fun hkk => hdj12 hkk (List.mem_cons_self _ _)
  have hl1mem : ∀ kv ∈ l1, kv ∈ st.sessions := by
    intro kv h
    rw [hsplit]
    exact List.mem_append_left _ h
  have hl2mem : ∀ kv ∈ l2, kv ∈ st.sessions := by
    intro kv h
    rw [hsplit]
    exact List.mem_append_right _ (List.mem_cons_of_mem _ h)
  have hl1ne : ∀ kv ∈ l1, kv.1 ≠ k := by
    intro kv h hkk
    exact hkl1 (List.mem_map.mpr ⟨kv, h, hkk⟩)
  have hl2ne : ∀ kv ∈ l2, kv.1 ≠ k := by
    intro kv h hkk
    exact hkl2 (List.mem_map.mpr ⟨kv, h, hkk⟩)
  have hfold : migrateSessionsToNewTarget st newTarget dialOk =
      l2.foldl (migrateStep newTarget dialOk)
        (migrateStep newTarget dialOk (l1.foldl (migrateStep newTarget dialOk) st)
          (k, s)) := by
    rw [migrateSessionsToNewTarget, hsplit, List.foldl_append, List.foldl_cons]
  have hle1 : st.nextSock ≤ (l1.foldl (migrateStep newTarget dialOk) st).nextSock :=
    migrate_fold_nextSock_le l1 st
  have hlook1 :
      lookupSession (l1.foldl (migrateStep newTarget dialOk) st).sessions k = some s := by
    rw [migrate_fold_lookup_frame l1 st hkl1]
    exact lookupSession_of_mem_nodup hnd hmem
  constructor
  · intro hfail
    have hstep : migrateStep newTarget dialOk (l1.foldl (migrateStep newTarget dialOk) st)
        (k, s) =
        { l1.foldl (migrateStep newTarget dialOk) st with
          sessions := eraseKey (l1.foldl (migrateStep newTarget dialOk) st).sessions k,
          openSocks := removeSockId
            (removeSockId (l1.foldl (migrateStep newTarget dialOk) st).openSocks
              s.toServerConn) s.toClientConn } :=
      migrateStep_fail hfail
    refine ⟨?_, ?_, ?_⟩
    · rw [hfold, hstep]
      intro hmem2
      exact not_mem_keys_eraseKey
        (l1.foldl (migrateStep newTarget dialOk) st).sessions k
        (migrate_fold_keys_subset l2 _ hmem2)
    · rw [hfold, hstep]
      apply migrate_fold_sock_closed
      · intro p hp
        exact (mem_removeSockId.mp (mem_removeSockId.mp hp).1).2
      · exact Nat.lt_of_lt_of_le (hlt (k, s) hmem).1 hle1
    · rw [hfold, hstep]
      apply migrate_fold_sock_closed
      · intro p hp
        exact (mem_removeSockId.mp hp).2
      · exact Nat.lt_of_lt_of_le (hlt (k, s) hmem).2 hle1
  · intro htrue
    have hstep : migrateStep newTarget dialOk (l1.foldl (migrateStep newTarget dialOk) st)
        (k, s) =
        { l1.foldl (migrateStep newTarget dialOk) st with
          sessions := setKey (l1.foldl (migrateStep newTarget dialOk) st).sessions k
            { s with toServerConn := (l1.foldl (migrateStep newTarget dialOk) st).nextSock },
          openSocks := removeSockId
              (l1.foldl (migrateStep newTarget dialOk) st).openSocks s.toServerConn ++
            [((l1.foldl (migrateStep newTarget dialOk) st).nextSock, newTarget)],
          nextSock := (l1.foldl (migrateStep newTarget dialOk) st).nextSock + 1,
          egress := (l1.foldl (migrateStep newTarget dialOk) st).egress ++
            [⟨k, (l1.foldl (migrateStep newTarget dialOk) st).nextSock⟩] } :=
      migrateStep_success htrue
    refine ⟨(l1.foldl (migrateStep newTarget dialOk) st).nextSock, ?_, ?_, ?_, ?_⟩
    · rw [hfold, hstep, migrate_fold_lookup_frame l2 _ hkl2]
      exact lookupSession_setKey_self _ hlook1
    · rw [hfold, hstep]
      apply migrate_fold_sock_open
      · exact List.mem_append_right _ (List.mem_singleton.mpr rfl)
      · intro kv hkv
        have h1 := (hlt kv (hl2mem kv hkv)).1
        have h2 := (hlt kv (hl2mem kv hkv)).2
        have hg1 : (l1.foldl (migrateStep newTarget dialOk) st).nextSock ≠
            kv.2.toServerConn := by omega
        have hg2 : (l1.foldl (migrateStep newTarget dialOk) st).nextSock ≠
            kv.2.toClientConn := by omega
        exact ⟨hg1, hg2⟩
    · rw [hfold, hstep]
      apply migrate_fold_egress_mono
      exact List.mem_append_right _ (List.mem_singleton.mpr rfl)
    · rcases hopen with ⟨d, hopend⟩
      have hopen1 : (s.toClientConn, d) ∈
          (l1.foldl (migrateStep newTarget dialOk) st).openSocks := by
        apply migrate_fold_sock_open l1 st _ hopend
        intro kv hkv
        have hd := hdisj kv (hl1mem kv hkv) (hl1ne kv hkv)
        exact ⟨Ne.symm hd.1, Ne.symm hd.2⟩
      refine ⟨d, ?_⟩
      rw [hfold]
      apply migrate_fold_sock_open l2 _ _
      · rw [hstep]
        exact List.mem_append_left _ (mem_removeSockId.mpr ⟨hopen1, Ne.symm hne⟩)
      · intro kv hkv
        have hd := hdisj kv (hl2mem kv hkv) (hl2ne kv hkv)
        exact ⟨Ne.symm hd.1, Ne.symm hd.2⟩

/-- Witness for C5 at a concrete input: migrating c7State to a new target
with a dial oracle that succeeds for client c and fails for client d removes
exactly the session of d while the session of c is re-homed and keeps its
client-facing socket. -/
theorem C5_witness :
    ("d" ∉ (migrateSessionsToNewTarget c7State "newT"
        (fun x => decide (x = "c"))).sessions.map Prod.fst) ∧
    (∃ n, lookupSession (migrateSessionsToNewTarget c7State "newT"
          (fun x => decide (x = "c"))).sessions "c" =
        some { (⟨"c", 0, 1, 100⟩ : ClientSession) with toServerConn := n } ∧
      (n, "newT") ∈ (migrateSessionsToNewTarget c7State "newT"
          (fun x => decide (x = "c"))).openSocks ∧
      EgressTask.mk "c" n ∈ (migrateSessionsToNewTarget c7State "newT"
          (fun x => decide (x = "c"))).egress ∧
      ∃ d2, ((⟨"c", 0, 1, 100⟩ : ClientSession).toClientConn, d2) ∈
        (migrateSessionsToNewTarget c7State "newT"
          (fun x => decide (x = "c"))).openSocks) := by
  have hd := C5_partial_migration c7State "newT" (fun x => decide (x = "c")) "d"
    idleSession (by decide) (by decide) (by decide) (by decide)
    ⟨"d", by decide⟩ (by decide)
  have hc := C5_partial_migration c7State "newT" (fun x => decide (x = "c")) "c"
    ⟨"c", 0, 1, 100⟩ (by decide) (by decide) (by decide) (by decide)
    ⟨"c", by decide⟩ (by decide)
  exact ⟨(hd.1 (by decide)).1, hc.2 (by decide)⟩
